import Mathlib

/-!
# Red Sea Risk Case Study — verification of the pipeline's data-flow contract

Shallow embedding of the repository's four stages:

* `Jobs/GDELT Miner.py` — row normalisation (`parse_and_write`): date
  cleaning, URL filtering, tone parsing with a Gaussian fallback draw.
* `Jobs/Upsample Rates.py` — `upsample_rates`: hourly linear interpolation
  of a weekly price series, noise injection, fail-fast on a missing file.
* `Jobs/repo.py` — the Dagster orchestrator: `ingest_news_to_mongo` and
  `transform_data_with_spark` (substring day key, `to_date` parse, sign
  inversion of tone, daily aggregation, inner join on truncated date).
* `streamlitdashboard.py` — `load_data`'s derived risk score and the
  sidebar's default date-window clamping.

External effects are made explicit: randomness becomes a value supplied to
the function that draws it, store state becomes a list passed in and out,
fallible reads become `Option`/`Except`.
-/

namespace RedSea

/-! ## Python string/number primitives used by the Miner -/

/-- Value of a list of decimal digit characters, most significant first
(`int(s)` on an all-digit string; `digitsToNat [] = 0`). -/
def digitsToNat (ds : List Char) : Nat :=
  ds.foldl (fun a c => a * 10 + (c.toNat - 48)) 0

/-- `int(s)` on the cleaned date string: succeeds exactly on a non-empty
all-digit string (the Miner's `cleaned_date` is always all digits, so the
only `ValueError` case is the empty string). -/
def py_int? (s : String) : Option Nat :=
  if s.data ≠ [] ∧ s.data.all Char.isDigit then some (digitsToNat s.data) else none

/-- Python's `str.strip()`: drop leading and trailing whitespace. -/
def pyStrip (s : String) : String :=
  ⟨(s.data.dropWhile Char.isWhitespace).reverse.dropWhile Char.isWhitespace |>.reverse⟩

/-- Optional sign prefix: returns the sign and the rest of the characters. -/
def parseSign : List Char → Int × List Char
  | '+' :: rest => (1, rest)
  | '-' :: rest => (-1, rest)
  | l => (1, l)

/-- Longest digit prefix and the remainder. -/
def takeDigits (l : List Char) : List Char × List Char :=
  (l.takeWhile Char.isDigit, l.dropWhile Char.isDigit)

/-- Optional exponent suffix (`e`/`E`, optional sign, digits) applied to an
already-parsed signed mantissa; anything left over fails. -/
def parseExpPart (sgn : Int) (mant : Rat) : List Char → Option Rat
  | [] => some (sgn * mant)
  | c :: l1 =>
    if c = 'e' ∨ c = 'E' then
      let (esgn, l2) := parseSign l1
      let (ed, l3) := takeDigits l2
      if ed = [] ∨ l3 ≠ [] then none
      else some (sgn * mant * (10 : Rat) ^ (esgn * (digitsToNat ed : Int)))
    else none

/-- Core of `float(s)` after whitespace stripping: sign, integer part,
optional `.` fraction, optional exponent. At least one digit is required in
the mantissa. -/
def parseFloatCore (l : List Char) : Option Rat :=
  let (sgn, l1) := parseSign l
  let (ip, l2) := takeDigits l1
  match l2 with
  | '.' :: l3 =>
    let (fp, l4) := takeDigits l3
    if ip = [] ∧ fp = [] then none
    else parseExpPart sgn ((digitsToNat ip : Rat) + (digitsToNat fp : Rat) / (10 : Rat) ^ fp.length) l4
  | _ =>
    if ip = [] then none
    else parseExpPart sgn (digitsToNat ip) l2

/-- `float(s)`: Python strips surrounding whitespace, then parses a decimal
literal (model of the library call used by the Miner's tone extraction). -/
def py_float? (s : String) : Option Rat :=
  parseFloatCore (pyStrip s).data

/-! ## GDELT Miner — `parse_and_write` (Jobs/GDELT Miner.py) -/

/-- A parsed CSV row from the API response after key normalisation, as an
association list from column name to field text. -/
def RawRow := List (String × String)

/-- `dict.get(k)` on the normalised row. -/
def rowGet (row : RawRow) (k : String) : Option String :=
  (List.find? (fun p => p.1 = k) row).map Prod.snd

/-- Python's `a or b` for a `dict.get` result against a string default:
`None` and the empty string are falsy. -/
def py_or (a : Option String) (b : String) : String :=
  match a with
  | some s => if s = "" then b else s
  | none => b

/-- Python's `a or b` when both operands are `dict.get` results. -/
def py_or_opt (a b : Option String) : Option String :=
  match a with
  | some s => if s = "" then b else some s
  | none => b

/-- `date_raw = norm_row.get("Date") or norm_row.get("date") or
norm_row.get("DATE") or ""`. -/
def date_raw (row : RawRow) : String :=
  py_or (rowGet row "Date") (py_or (rowGet row "date") (py_or (rowGet row "DATE") ""))

/-- `cleaned_date = "".join(ch for ch in date_raw if ch.isdigit())[:8]`:
keep only the digits, take the first 8. -/
def cleaned_date (s : String) : String :=
  ⟨(s.data.filter Char.isDigit).take 8⟩

/-- `url_val = (norm_row.get("URL") or norm_row.get("url") or
norm_row.get("Url") or "").strip()`. -/
def url_val (row : RawRow) : String :=
  pyStrip (py_or (rowGet row "URL") (py_or (rowGet row "url") (py_or (rowGet row "Url") "")))

/-- `tone_str = norm_row.get("Tone") or norm_row.get("tone") or
norm_row.get("AvgTone")` — the last operand is returned as-is, so the
result may still be `None` or empty. -/
def tone_str (row : RawRow) : Option String :=
  py_or_opt (rowGet row "Tone") (py_or_opt (rowGet row "tone") (rowGet row "AvgTone"))

/-- The Miner's tone extraction: `float(tone_str)` when `tone_str` is truthy
and parses, otherwise the fallback value `random.gauss(-5.0, 2.0)` — the
Gaussian draw is supplied as `fallback`. -/
def tone_of (ts : Option String) (fallback : Rat) : Rat :=
  match ts with
  | none => fallback
  | some s =>
    if s ≠ "" ∧ pyStrip s ≠ "" then
      match py_float? s with
      | some v => v
      | none => fallback
    else fallback

/-- One output record of the Miner (columns of the output CSV). -/
structure EventRecord where
  globalEventID : Nat
  day : Nat
  country : String
  tone : Rat
  sourceURL : String
deriving DecidableEq, Repr

/-- The per-row body of `parse_and_write`: clean the date and `int` it
(skip on `ValueError`), strip the URL (skip when empty), extract the tone
with the Gaussian fallback draw `fb`, and emit the record. `none` means the
row is skipped (`continue`). -/
def process_row (row : RawRow) (id : Nat) (fb : Rat) : Option EventRecord :=
  match py_int? (cleaned_date (date_raw row)) with
  | none => none
  | some day_int =>
    if url_val row = "" then none
    else some
      { globalEventID := id
        day := day_int
        country := "YEM"
        tone := tone_of (tone_str row) fb
        sourceURL := url_val row }

/-- The orchestrator's day-key derivation `substring(col("Day"), 1, 8)`
(Jobs/repo.py, `transform_data_with_spark`): the first 8 characters of the
raw day field. -/
def spark_day_str (s : String) : String :=
  ⟨s.data.take 8⟩

/-! ## Rate Upsampler — `upsample_rates` (Jobs/Upsample Rates.py)

Timestamps are modelled as hours since the first possible anchor (the
weekly anchors of `rates.csv` are dates, hence hour-aligned, so
`resample('h')` re-indexes from the first to the last anchor at unit
steps). -/

/-- Linear interpolation against a chronologically sorted anchor list
(`interpolate(method='linear')`): within the segment `[a, b]` the value is
`va + (vb - va) * (t - a) / (b - a)`; an exact anchor keeps its value. -/
def interp_segments : List (Nat × Rat) → Nat → Rat
  | [], _ => 0
  | [(_, va)], _ => va
  | (a, va) :: (b, vb) :: rest, t =>
    if t ≤ b then va + (vb - va) * (((t : Rat) - (a : Rat)) / ((b : Rat) - (a : Rat)))
    else interp_segments ((b, vb) :: rest) t

/-- `df_rates.resample('h').interpolate(method='linear')`: a contiguous
hourly index from the first to the last anchor time (boundary inclusive),
each point linearly interpolated. -/
def upsample (anchors : List (Nat × Rat)) : List (Nat × Rat) :=
  match anchors.head?, anchors.getLast? with
  | some (t0, _), some (t1, _) =>
    (List.range (t1 - t0 + 1)).map fun i => (t0 + i, interp_segments anchors (t0 + i))
  | _, _ => []

/-- One row of `upsampled_rates.csv`. -/
structure HourlyRateRecord where
  date : Nat
  route : String
  price : Rat
deriving DecidableEq, Repr

/-- Round half to even at integer precision (numpy/pandas rounding). -/
def roundHalfEven (x : Rat) : Int :=
  let f := ⌊x⌋
  let r := x - (f : Rat)
  if r < 1 / 2 then f
  else if r > 1 / 2 then f + 1
  else if f % 2 = 0 then f else f + 1

/-- `Series.round(2)`: round to two decimal places. -/
def round2 (x : Rat) : Rat :=
  (roundHalfEven (x * 100) : Rat) / 100

/-- `upsample_rates()`: the source file is an `Option` (absent file raises
`FileNotFoundError`, caught and turned into `sys.exit(1)`, modelled as
`Except.error 1`); on success the weekly anchors are upsampled, tagged with
the constant route, perturbed by the supplied noise draws and rounded, and
the hourly rows are written out (`Except.ok`). -/
def upsample_rates (file : Option (List (Nat × Rat))) (noise : Nat → Rat) :
    Except Nat (List HourlyRateRecord) :=
  match file with
  | none => Except.error 1
  | some anchors =>
    Except.ok <| (upsample anchors).enum.map fun p =>
      { date := p.2.1, route := "Shanghai-Rotterdam", price := round2 (p.2.2 + noise p.1) }

/-! ## Orchestrator — `ingest_news_to_mongo` (Jobs/repo.py) -/

/-- A document of the `raw_gdelt_events` collection, as Spark reads it
under `news_schema`: one Miner CSV row, with `Day` read back as *text*
(the schema declares `StringType` because Mongo holds the day as a
string). -/
structure NewsDoc where
  globalEventID : Nat
  day : String
  country : String
  tone : Rat
  sourceURL : String
deriving DecidableEq, Repr

/-- `ingest_news_to_mongo`: `delete_many({})` empties the collection
unconditionally, *then* the CSV is read and inserted inside the `try`.
`readResult` is the outcome of `pd.read_csv` + `to_dict` (an exception
carries its message), `insertErr` a failure raised by `insert_many`.
Returns the final collection contents and the asset's report string. -/
def ingest_news_to_mongo (prior : List NewsDoc)
    (readResult : Except String (List NewsDoc)) (insertErr : Option String) :
    List NewsDoc × String :=
  let emptied : List NewsDoc := []
  match readResult with
  | Except.error e => (emptied, "Error: " ++ e)
  | Except.ok records =>
    if records ≠ [] then
      match insertErr with
      | some e => (emptied, "Error: " ++ e)
      | none => (records, "Success! Inserted " ++ toString records.length ++ " Real News events.")
    else (emptied, "CSV was empty.")

/-! ## Orchestrator — `transform_data_with_spark` (Jobs/repo.py) -/

/-- Leap year (Gregorian), for `to_date`'s calendar validation. -/
def isLeap (y : Nat) : Bool :=
  (y % 4 = 0 && y % 100 ≠ 0) || y % 400 = 0

/-- Days in a month (Gregorian). -/
def daysInMonth (y m : Nat) : Nat :=
  if m = 2 then (if isLeap y then 29 else 28)
  else if m = 4 ∨ m = 6 ∨ m = 9 ∨ m = 11 then 30
  else 31

/-- `to_date(day_str, "yyyyMMdd")`: parses exactly an 8-digit string whose
month and day are calendar-valid; the date is kept in its `YYYYMMDD`
numeric encoding (order-isomorphic to calendar order). Returns `none`
(SQL `NULL`) otherwise. -/
def to_date_yyyymmdd (s : String) : Option Nat :=
  if s.data.length = 8 ∧ s.data.all Char.isDigit then
    let n := digitsToNat s.data
    let m := n / 100 % 100
    let d := n % 100
    if 1 ≤ m ∧ m ≤ 12 ∧ 1 ≤ d ∧ d ≤ daysInMonth (n / 10000) m then some n else none
  else none

/-- An hourly timestamp of the `Staging_Rates` table: calendar date in
`YYYYMMDD` encoding plus the time of day. -/
structure Timestamp where
  ymd : Nat
  hour : Nat
deriving DecidableEq, Repr

/-- `to_date(df_rates.Date)`: truncate a timestamp to its calendar date. -/
def to_date_ts (t : Timestamp) : Nat := t.ymd

/-- A row of `Staging_Rates` as Spark reads it. -/
structure RateRow where
  date : Timestamp
  price : Rat
deriving DecidableEq, Repr

/-- `event_date`: first 8 characters of the raw `Day` field, parsed with
format `yyyyMMdd`. -/
def event_date (d : NewsDoc) : Option Nat :=
  to_date_yyyymmdd (spark_day_str d.day)

/-- `conflict_intensity = col("Tone") * -1`. -/
def conflict_intensity (d : NewsDoc) : Rat := d.tone * (-1)

/-- A row of the daily news aggregate `df_daily_news`. -/
structure DailyNews where
  event_date : Option Nat
  news_count : Nat
  avg_conflict_score : Rat
deriving DecidableEq, Repr

/-- `df_news.groupBy("event_date").agg(count("*"), avg(conflict_intensity))`:
one aggregate row per distinct `event_date` key (including the `NULL`
key), with the group's size and mean conflict intensity. -/
def df_daily_news (docs : List NewsDoc) : List DailyNews :=
  ((docs.map event_date).dedup).map fun k =>
    let grp := docs.filter fun d => event_date d = k
    { event_date := k
      news_count := grp.length
      avg_conflict_score := (grp.map conflict_intensity).sum / (grp.length : Rat) }

/-- A row of the `Gold_Analytics_RedSea` table. -/
structure GoldRow where
  full_date : Timestamp
  price : Rat
  news_count : Nat
  avg_conflict_score : Rat
deriving DecidableEq, Repr

/-- The transform's join and projection:
`df_rates.join(df_daily_news, to_date(df_rates.Date) == df_daily_news.event_date,
how="inner")` — SQL equality, so a `NULL` `event_date` never matches —
projected onto the gold columns. -/
def transform_data_with_spark (docs : List NewsDoc) (rates : List RateRow) :
    List GoldRow :=
  rates.flatMap fun r =>
    (df_daily_news docs).filterMap fun g =>
      if g.event_date = some (to_date_ts r.date) then
        some { full_date := r.date, price := r.price,
               news_count := g.news_count, avg_conflict_score := g.avg_conflict_score }
      else none

/-- The transform stage as run by the orchestrator: the gold table is
overwritten with the join result when it is non-empty; an empty join writes
nothing (the prior gold table survives) and reports the no-match message.
`rng` stands for any ambient randomness available to the process — the
read-aggregate-join-write plan never consults it. -/
def transform_stage (docs : List NewsDoc) (rates : List RateRow)
    (priorGold : List GoldRow) (rng : Nat → Rat) : List GoldRow × String :=
  let df_final := transform_data_with_spark docs rates
  if df_final.length > 0 then
    (df_final, "Success! Saved " ++ toString df_final.length ++ " rows (Hourly Rates + News).")
  else (priorGold, "Spark Job Ran. No matching dates found between News and Rates.")

/-- One output point lies on the linear segment between two adjacent
anchors: the point's time is within the segment and its value is the
linear interpolation of the segment's endpoint values. -/
def OnSegment (anchors : List (Nat × Rat)) (t : Nat) (v : Rat) : Prop :=
  ∃ p ∈ anchors.zip anchors.tail,
    p.1.1 ≤ t ∧ t ≤ p.2.1 ∧
    v = p.1.2 + (p.2.2 - p.1.2) * (((t : Rat) - (p.1.1 : Rat)) / ((p.2.1 : Rat) - (p.1.1 : Rat)))

/-- The news documents of one calendar day (the day's group in the
`groupBy`). -/
def docs_on (docs : List NewsDoc) (d : Nat) : List NewsDoc :=
  docs.filter fun x => event_date x = some d

/-! ## Dashboard — `streamlitdashboard.py` -/

/-- `load_data`'s derived column:
`df['Risk_Score'] = df['news_count'] * df['avg_conflict_score']` — computed
on the loaded frame, never written back to the store (no `GoldRow` field
holds it). -/
def risk_score (g : GoldRow) : Rat :=
  (g.news_count : Rat) * g.avg_conflict_score

/-- Hard-coded default window start, `pd.to_datetime("2023-11-15").date()`,
in `YYYYMMDD` encoding. -/
def default_start_raw : Nat := 20231115

/-- Hard-coded default window end, `pd.to_datetime("2024-01-31").date()`. -/
def default_end_raw : Nat := 20240131

/-- `if default_start < min_date: default_start = min_date`. -/
def effective_default_start (min_date : Nat) : Nat :=
  if default_start_raw < min_date then min_date else default_start_raw

/-- `if default_end > max_date: default_end = max_date`. -/
def effective_default_end (max_date : Nat) : Nat :=
  if default_end_raw > max_date then max_date else default_end_raw

/-- The calendar dates (`.dt.date`, `YYYYMMDD` encoding) of the loaded
gold rows. -/
def full_dates (df : List GoldRow) : List Nat :=
  df.map fun g => g.full_date.ymd

/-- `df['full_date'].min().date()` (`none` only on an empty frame, which
the dashboard stops on before reaching the sidebar). -/
def min_full_date (df : List GoldRow) : Option Nat :=
  (full_dates df).min?

/-- `df['full_date'].max().date()`. -/
def max_full_date (df : List GoldRow) : Option Nat :=
  (full_dates df).max?

/-! ## Helper lemmas -/

/-- A decimal digit character has value `c.toNat - 48 ≤ 9`. -/
theorem digit_val_le (c : Char) (h : c.isDigit = true) : c.toNat - 48 ≤ 9 := by
  simp [Char.isDigit, decide_eq_true_eq] at h
  obtain ⟨h1, h2⟩ := h
  have h3 : c.val.toNat ≤ 57 := h2
  have h4 : 48 ≤ c.val.toNat := h1
  simp [Char.toNat]
  omega

/-- A nonzero decimal digit character has value at least 1. -/
theorem digit_val_pos (c : Char) (h : c.isDigit = true) (h0 : c ≠ '0') :
    1 ≤ c.toNat - 48 := by
  simp [Char.isDigit, decide_eq_true_eq] at h
  obtain ⟨h1, h2⟩ := h
  have h4 : 48 ≤ c.val.toNat := h1
  have h5 : c.val.toNat ≠ 48 := fun he => h0 (Char.ext (UInt32.ext he))
  simp [Char.toNat]
  omega

theorem foldl_digits_lt (ds : List Char) (acc : Nat) (h : ∀ c ∈ ds, c.isDigit = true) :
    ds.foldl (fun a c => a * 10 + (c.toNat - 48)) acc < (acc + 1) * 10 ^ ds.length := by
  induction ds generalizing acc with
  | nil => simpa using Nat.lt_succ_self acc
  | cons c rest ih =>
    have hd : c.toNat - 48 ≤ 9 := digit_val_le c (h c (by simp))
    have hrec := ih (acc * 10 + (c.toNat - 48)) (fun x hx => h x (by simp [hx]))
    have hstep : acc * 10 + (c.toNat - 48) + 1 ≤ (acc + 1) * 10 := by omega
    calc (c :: rest).foldl (fun a c => a * 10 + (c.toNat - 48)) acc
        = rest.foldl (fun a c => a * 10 + (c.toNat - 48)) (acc * 10 + (c.toNat - 48)) := rfl
      _ < (acc * 10 + (c.toNat - 48) + 1) * 10 ^ rest.length := hrec
      _ ≤ ((acc + 1) * 10) * 10 ^ rest.length := Nat.mul_le_mul_right _ hstep
      _ = (acc + 1) * 10 ^ (c :: rest).length := by rw [List.length_cons]; ring

theorem foldl_digits_ge (ds : List Char) (acc : Nat) :
    acc * 10 ^ ds.length ≤ ds.foldl (fun a c => a * 10 + (c.toNat - 48)) acc := by
  induction ds generalizing acc with
  | nil => simp
  | cons c rest ih =>
    calc acc * 10 ^ (c :: rest).length
        = (acc * 10) * 10 ^ rest.length := by rw [List.length_cons]; ring
      _ ≤ (acc * 10 + (c.toNat - 48)) * 10 ^ rest.length :=
          Nat.mul_le_mul_right _ (Nat.le_add_right _ _)
      _ ≤ rest.foldl (fun a c => a * 10 + (c.toNat - 48)) (acc * 10 + (c.toNat - 48)) := ih _

theorem digitsToNat_lt (ds : List Char) (h : ∀ c ∈ ds, c.isDigit = true) :
    digitsToNat ds < 10 ^ ds.length := by
  simpa [digitsToNat] using foldl_digits_lt ds 0 h

theorem digitsToNat_ge (c : Char) (rest : List Char) (h : c.isDigit = true) (h0 : c ≠ '0') :
    10 ^ rest.length ≤ digitsToNat (c :: rest) := by
  have h1 : 1 ≤ c.toNat - 48 := digit_val_pos c h h0
  calc 10 ^ rest.length = 1 * 10 ^ rest.length := (Nat.one_mul _).symm
    _ ≤ (c.toNat - 48) * 10 ^ rest.length := Nat.mul_le_mul_right _ h1
    _ ≤ rest.foldl (fun a c => a * 10 + (c.toNat - 48)) (c.toNat - 48) := foldl_digits_ge rest _
    _ = digitsToNat (c :: rest) := by simp [digitsToNat]

/-! ## C3 — date cleaning -/

/-- C3. For every raw date field that carries an 8-digit date key — any
digit-free prefix, the key, then arbitrary trailing characters — the
Miner's cleaning routine returns exactly those leading 8 digits and
discards the rest; the orchestrator's day-key derivation
(`substring(Day, 1, 8)`) tolerates trailing characters and yields the same
8-digit key, on which the Miner's routine agrees. -/
theorem c3_date_cleaning (pre key post : List Char)
    (hpre : ∀ c ∈ pre, c.isDigit = false) (hlen : key.length = 8)
    (hkey : ∀ c ∈ key, c.isDigit = true) :
    cleaned_date ⟨pre ++ (key ++ post)⟩ = ⟨key⟩ ∧
    cleaned_date ⟨key ++ post⟩ = ⟨key⟩ ∧
    spark_day_str ⟨key ++ post⟩ = ⟨key⟩ := by
  have hpre' : pre.filter Char.isDigit = [] :=
    List.filter_eq_nil_iff.mpr (fun c hc => by simp [hpre c hc])
  have hkey' : key.filter Char.isDigit = key := List.filter_eq_self.mpr hkey
  refine ⟨?_, ?_, ?_⟩
  · show (⟨((pre ++ (key ++ post)).filter Char.isDigit).take 8⟩ : String) = ⟨key⟩
    rw [List.filter_append, List.filter_append, hpre', hkey', List.nil_append,
      List.take_left' hlen]
  · show (⟨((key ++ post).filter Char.isDigit).take 8⟩ : String) = ⟨key⟩
    rw [List.filter_append, hkey', List.take_left' hlen]
  · show (⟨(key ++ post).take 8⟩ : String) = ⟨key⟩
    rw [List.take_left' hlen]

/-- C3 witness: the concrete field `20231019T120000`. -/
theorem c3_date_cleaning_witness :
    cleaned_date ⟨[] ++ ("20231019".data ++ "T120000".data)⟩ = ⟨"20231019".data⟩ ∧
    cleaned_date ⟨"20231019".data ++ "T120000".data⟩ = ⟨"20231019".data⟩ ∧
    spark_day_str ⟨"20231019".data ++ "T120000".data⟩ = ⟨"20231019".data⟩ :=
  c3_date_cleaning [] "20231019".data "T120000".data (by decide) (by decide) (by decide)

/-! ## C4 — the `day` invariant (corrected) -/

/-- C4 counterexample: the raw date field `"2023"` has only four digits,
yet `int("2023")` succeeds, so the row is *not* skipped: the Miner emits a
record whose `day` is `2023`, which is not an 8-digit integer. -/
theorem c4_day_counterexample :
    process_row [("Date", "2023"), ("URL", "x")] 100000 0 =
      some { globalEventID := 100000, day := 2023, country := "YEM",
             tone := 0, sourceURL := "x" } ∧
    ¬ 10 ^ 7 ≤ (2023 : Nat) := by
  refine ⟨by decide, by decide⟩

/-- C4, amended. For every record the Miner writes, `day` is the integer
value of the first (at most 8) digits of the raw date field — so the field
must contain at least one digit — and `day < 10^8`; `day` is a genuine
8-digit integer only when the field contains at least 8 digits and the
first of them is not `'0'`. -/
theorem c4_day_amended (row : RawRow) (id : Nat) (fb : Rat) (rec : EventRecord)
    (h : process_row row id fb = some rec) :
    (date_raw row).data.filter Char.isDigit ≠ [] ∧
    rec.day = digitsToNat (((date_raw row).data.filter Char.isDigit).take 8) ∧
    rec.day < 10 ^ 8 ∧
    (8 ≤ ((date_raw row).data.filter Char.isDigit).length →
      ((date_raw row).data.filter Char.isDigit).headD '0' ≠ '0' →
      10 ^ 7 ≤ rec.day) := by
  set ds := (date_raw row).data.filter Char.isDigit with hds
  have hdig : ∀ c ∈ ds, c.isDigit = true := fun c hc => (List.mem_filter.mp hc).2
  unfold process_row at h
  cases hq : py_int? (cleaned_date (date_raw row)) with
  | none => rw [hq] at h; cases h
  | some day_int =>
    rw [hq] at h
    dsimp only at h
    by_cases hu : url_val row = ""
    · rw [if_pos hu] at h; cases h
    · rw [if_neg hu] at h
      have hrec : rec.day = day_int := by
        cases h; rfl
      unfold py_int? at hq
      have hcd : (cleaned_date (date_raw row)).data = ds.take 8 := by
        simp [cleaned_date, hds]
      by_cases hc : (cleaned_date (date_raw row)).data ≠ [] ∧
          ((cleaned_date (date_raw row)).data.all Char.isDigit) = true
      · rw [if_pos hc] at hq
        have hday : day_int = digitsToNat (ds.take 8) := by
          have := Option.some_inj.mp hq
          rw [← this, hcd]
        have htake_dig : ∀ c ∈ ds.take 8, c.isDigit = true :=
          fun c hc' => hdig c (List.mem_of_mem_take hc')
        refine ⟨?_, ?_, ?_, ?_⟩
        · intro hnil
          exact hc.1 (by rw [hcd, hnil, List.take_nil])
        · rw [hrec, hday]
        · rw [hrec, hday]
          calc digitsToNat (ds.take 8) < 10 ^ (ds.take 8).length :=
                digitsToNat_lt _ htake_dig
            _ ≤ 10 ^ 8 := Nat.pow_le_pow_right (by omega)
                (by simpa using Nat.min_le_left 8 ds.length)
        · intro hlen hhead
          match hd : ds, hlen, hhead, hday, hdig with
          | [], hlen, _, _, _ => simp at hlen
          | c :: tail, hlen, hhead, hday, hdig =>
            have htail : 7 ≤ tail.length := by
              simpa [List.length_cons] using hlen
            have htake : (c :: tail).take 8 = c :: tail.take 7 := rfl
            have hlen7 : (tail.take 7).length = 7 := by
              simp [List.length_take, Nat.min_eq_left htail]
            have hc0 : c ≠ '0' := by simpa using hhead
            have hcdig : c.isDigit = true := hdig c (by simp)
            rw [hrec, hday, htake]
            calc (10 : Nat) ^ 7 = 10 ^ (tail.take 7).length := by rw [hlen7]
              _ ≤ digitsToNat (c :: tail.take 7) := digitsToNat_ge c _ hcdig hc0
      · rw [if_neg hc] at hq; cases hq

/-- C4 witness: a well-formed field with trailing characters produces an
8-digit `day`. -/
theorem c4_day_amended_witness :
    process_row [("Date", "20231019T12"), ("URL", "x")] 1 0 =
      some { globalEventID := 1, day := 20231019, country := "YEM",
             tone := 0, sourceURL := "x" } ∧
    10 ^ 7 ≤ ({ globalEventID := 1, day := 20231019, country := "YEM",
                tone := 0, sourceURL := "x" } : EventRecord).day :=
  ⟨by decide,
    (c4_day_amended [("Date", "20231019T12"), ("URL", "x")] 1 0
      { globalEventID := 1, day := 20231019, country := "YEM", tone := 0, sourceURL := "x" }
      (by decide)).2.2.2 (by decide) (by decide)⟩

/-! ## C6 — tone fallback -/

theorem parseFloatCore_nil : parseFloatCore [] = none := rfl

theorem pyStrip_empty : pyStrip "" = "" := rfl

theorem py_float_of_strip_empty (s : String) (h : pyStrip s = "") : py_float? s = none := by
  unfold py_float?
  rw [h]
  exact parseFloatCore_nil

/-- C6. The Miner never rejects a row for its tone: when the tone field is
absent (`None`), empty, whitespace-only, or unparseable as a float, the
emitted tone is the fallback Gaussian draw (`random.gauss(-5.0, 2.0)`,
supplied here as `fb`); when the tone field parses as a float, that parsed
value is emitted unchanged. -/
theorem c6_tone_fallback (fb : Rat) :
    tone_of none fb = fb ∧
    (∀ s : String, pyStrip s = "" → tone_of (some s) fb = fb) ∧
    (∀ s : String, py_float? s = none → tone_of (some s) fb = fb) ∧
    (∀ s : String, ∀ v : Rat, py_float? s = some v → tone_of (some s) fb = v) := by
  refine ⟨rfl, ?_, ?_, ?_⟩
  · intro s h
    dsimp only [tone_of]
    rw [if_neg]
    intro hc
    exact hc.2 h
  · intro s h
    dsimp only [tone_of]
    by_cases hc : s ≠ "" ∧ pyStrip s ≠ ""
    · rw [if_pos hc, h]
    · rw [if_neg hc]
  · intro s v h
    have hstrip : pyStrip s ≠ "" := by
      intro he
      rw [py_float_of_strip_empty s he] at h
      cases h
    have hs : s ≠ "" := by
      intro he
      exact hstrip (by rw [he]; exact pyStrip_empty)
    dsimp only [tone_of]
    rw [if_pos ⟨hs, hstrip⟩, h]

/-- C6 witness: `-4.5` parses and is kept; `"n/a"` falls back. -/
theorem c6_tone_fallback_witness :
    tone_of (some "-4.5") 7 = -9 / 2 ∧ tone_of (some "n/a") 7 = 7 := by
  have hp : py_float? "-4.5" = some ((-1 : Int) * ((digitsToNat ['4'] : Rat) +
      (digitsToNat ['5'] : Rat) / (10 : Rat) ^ (['5'] : List Char).length)) := rfl
  have h4 : digitsToNat ['4'] = 4 := by decide
  have h5 : digitsToNat ['5'] = 5 := by decide
  have hval : py_float? "-4.5" = some (-9 / 2) := by
    rw [hp, h4, h5]; norm_num
  exact ⟨(c6_tone_fallback 7).2.2.2 "-4.5" (-9 / 2) hval,
    (c6_tone_fallback 7).2.2.1 "n/a" (by decide)⟩

/-! ## C2 — upsampling by linear interpolation -/

theorem interp_segments_mem (rest : List (Nat × Rat)) :
    ∀ (a : Nat) (va : Rat) (b : Nat) (vb : Rat) (t : Nat), a ≤ t →
    t ≤ (((b, vb) :: rest).getLast (by simp)).1 →
    OnSegment ((a, va) :: (b, vb) :: rest) t (interp_segments ((a, va) :: (b, vb) :: rest) t) := by
  induction rest with
  | nil =>
    intro a va b vb t hlo hhi
    simp only [List.getLast_singleton] at hhi
    refine ⟨((a, va), (b, vb)), by simp, hlo, hhi, ?_⟩
    simp [interp_segments, hhi]
  | cons c rest ih =>
    intro a va b vb t hlo hhi
    by_cases hb : t ≤ b
    · refine ⟨((a, va), (b, vb)), by simp, hlo, hb, ?_⟩
      simp [interp_segments, hb]
    · have hlo' : b ≤ t := Nat.le_of_lt (Nat.lt_of_not_le hb)
      have hhi' : t ≤ ((c :: rest).getLast (by simp)).1 := by
        rw [List.getLast_cons (by simp : (c :: rest) ≠ [])] at hhi
        exact hhi
      obtain ⟨p, hp, h1, h2, h3⟩ := ih b vb c.1 c.2 t hlo' hhi'
      have hstep : interp_segments ((a, va) :: (b, vb) :: c :: rest) t
          = interp_segments ((b, vb) :: c :: rest) t := by
        simp [interp_segments, hb]
      refine ⟨p, ?_, h1, h2, by rw [hstep]; exact h3⟩
      simp only [List.zip_cons_cons, List.tail_cons] at hp ⊢
      exact List.mem_cons_of_mem _ hp

theorem chain_head_le_last (l : List (Nat × Rat)) :
    ∀ a b : Nat × Rat, List.Chain' (fun p q => p.1 < q.1) l →
    l.head? = some a → l.getLast? = some b → a.1 ≤ b.1 := by
  induction l with
  | nil => intro a b _ ha _; cases ha
  | cons x l ih =>
    intro a b hc ha hb
    cases l with
    | nil =>
      simp at ha hb
      rw [← ha, ← hb]
    | cons y l' =>
      rw [List.head?_cons, Option.some_inj] at ha
      rw [List.getLast?_cons_cons] at hb
      rw [List.chain'_cons] at hc
      have h2 := ih y b hc.2 (List.head?_cons) hb
      rw [← ha]
      exact Nat.le_trans (Nat.le_of_lt hc.1) h2

theorem upsample_eq (anchors : List (Nat × Rat)) (t0 t1 : Nat) (v0 v1 : Rat)
    (hh : anchors.head? = some (t0, v0)) (hl : anchors.getLast? = some (t1, v1)) :
    upsample anchors =
      (List.range (t1 - t0 + 1)).map fun i => (t0 + i, interp_segments anchors (t0 + i)) := by
  unfold upsample
  rw [hh, hl]

theorem upsample_shape (anchors : List (Nat × Rat)) (t0 t1 : Nat) (v0 v1 : Rat)
    (hsort : List.Chain' (fun p q => p.1 < q.1) anchors)
    (hh : anchors.head? = some (t0, v0)) (hl : anchors.getLast? = some (t1, v1)) :
    (upsample anchors).length = t1 - t0 + 1 ∧
    (∀ i (hi : i < (upsample anchors).length), ((upsample anchors).get ⟨i, hi⟩).1 = t0 + i) ∧
    (∀ p ∈ upsample anchors, 2 ≤ anchors.length → OnSegment anchors p.1 p.2) := by
  have hle : t0 ≤ t1 := chain_head_le_last anchors (t0, v0) (t1, v1) hsort hh hl
  rw [upsample_eq anchors t0 t1 v0 v1 hh hl]
  refine ⟨by simp, ?_, ?_⟩
  · intro i hi
    simp [List.get_eq_getElem, List.getElem_map]
  · intro p hp h2
    obtain ⟨i, hi, rfl⟩ := List.mem_map.mp hp
    have hirange : i < t1 - t0 + 1 := List.mem_range.mp hi
    have hbound : t0 + i ≤ t1 := by omega
    match anchors, hh, hl, h2 with
    | (a, va) :: (b, vb) :: rest, hh, hl, _ =>
      have ha : a = t0 := by
        rw [List.head?_cons, Option.some_inj] at hh
        exact (congrArg Prod.fst hh)
      have hgl : ((a, va) :: (b, vb) :: rest).getLast (by simp) = (t1, v1) := by
        rw [List.getLast?_eq_getLast _ (by simp), Option.some_inj] at hl
        exact hl
      have hgl2 : (((b, vb) :: rest).getLast (by simp)).1 = t1 := by
        rw [← List.getLast_cons (by simp : ((b, vb) :: rest) ≠ [])]
        rw [hgl]
      exact interp_segments_mem rest a va b vb (t0 + i)
        (by rw [ha]; exact Nat.le_add_right t0 i) (by rw [hgl2]; exact hbound)

theorem upsample_ex_eq :
    upsample [(0, 1000), (168, 1200)] =
      (List.range 169).map fun i : Nat => (i, 1000 + 200 * ((i : Rat) / 168)) := by
  rw [upsample_eq [(0, 1000), (168, 1200)] 0 168 1000 1200 rfl rfl]
  refine List.map_congr_left ?_
  intro i hi
  have hle : i ≤ 168 := by
    have := List.mem_range.mp hi
    omega
  have h0 : (0 : Nat) + i ≤ 168 := by omega
  simp only [interp_segments]
  rw [if_pos h0]
  simp only [Prod.mk.injEq]
  refine ⟨by omega, ?_⟩
  push_cast
  norm_num

theorem upsample_ex_values :
    (upsample [(0, 1000), (168, 1200)]).map Prod.snd =
      (List.range 169).map fun i : Nat => 1000 + 200 * ((i : Rat) / 168) := by
  rw [upsample_ex_eq, List.map_map]
  rfl

theorem upsample_example :
    (upsample [(0, 1000), (168, 1200)]).length = 169 ∧
    List.Chain' (· < ·) ((upsample [(0, 1000), (168, 1200)]).map Prod.snd) ∧
    ((upsample [(0, 1000), (168, 1200)]).map Prod.snd).head? = some 1000 ∧
    ((upsample [(0, 1000), (168, 1200)]).map Prod.snd).getLast? = some 1200 := by
  refine ⟨by rw [upsample_ex_eq]; simp, ?_, ?_, ?_⟩
  · rw [upsample_ex_values]
    rw [List.chain'_map]
    have h169 : (169 : Nat) = 168 + 1 := rfl
    rw [h169, List.chain'_range_succ]
    intro m hm
    have hmQ : (m : Rat) < ((m + 1 : Nat) : Rat) := by exact_mod_cast Nat.lt_succ_self m
    have hdiv : (m : Rat) / 168 < ((m + 1 : Nat) : Rat) / 168 :=
      (div_lt_div_iff_of_pos_right (by norm_num)).mpr hmQ
    have := mul_lt_mul_of_pos_left hdiv (show (0 : Rat) < 200 by norm_num)
    linarith
  · rw [upsample_ex_values]
    rw [List.head?_map]
    rw [show (169 : Nat) = 168 + 1 from rfl, List.range_succ_eq_map]
    rw [List.head?_cons]
    norm_num
  · rw [upsample_ex_values]
    rw [List.getLast?_map]
    rw [show (169 : Nat) = 168 + 1 from rfl, List.range_succ]
    rw [List.getLast?_concat]
    norm_num

/-- C2. For every strictly chronological weekly anchor series, the
upsampled output is a contiguous hourly sequence spanning the first to the
last anchor time (boundary inclusive, no extrapolation) — its length is
`last - first + 1` and its `i`-th time is `first + i` — and every
synthesized value lies on the linear segment between its two bounding
anchors before noise is added. In particular the two-anchor input
`[(2023-10-01, 1000), (2023-10-08, 1200)]` (hours 0 and 168) yields
exactly 169 hourly points whose pre-noise values increase strictly
monotonically from 1000 to 1200. -/
theorem c2_upsample_contract :
    (∀ (anchors : List (Nat × Rat)) (t0 t1 : Nat) (v0 v1 : Rat),
      List.Chain' (fun p q => p.1 < q.1) anchors →
      anchors.head? = some (t0, v0) →
      anchors.getLast? = some (t1, v1) →
      (upsample anchors).length = t1 - t0 + 1 ∧
      (∀ i (hi : i < (upsample anchors).length),
        ((upsample anchors).get ⟨i, hi⟩).1 = t0 + i) ∧
      (∀ p ∈ upsample anchors, 2 ≤ anchors.length → OnSegment anchors p.1 p.2)) ∧
    (upsample [(0, 1000), (168, 1200)]).length = 169 ∧
    List.Chain' (· < ·) ((upsample [(0, 1000), (168, 1200)]).map Prod.snd) ∧
    ((upsample [(0, 1000), (168, 1200)]).map Prod.snd).head? = some 1000 ∧
    ((upsample [(0, 1000), (168, 1200)]).map Prod.snd).getLast? = some 1200 :=
  ⟨fun anchors t0 t1 v0 v1 hs hh hl => upsample_shape anchors t0 t1 v0 v1 hs hh hl,
   upsample_example⟩

/-- C2 witness: the general contract applied to the concrete two-anchor
series. -/
theorem c2_upsample_contract_witness :
    (upsample [(0, 1000), (168, 1200)]).length = 168 - 0 + 1 ∧
    (∀ i (hi : i < (upsample [(0, 1000), (168, 1200)]).length),
      ((upsample [(0, 1000), (168, 1200)]).get ⟨i, hi⟩).1 = 0 + i) ∧
    (∀ p ∈ upsample [(0, 1000), (168, 1200)],
      2 ≤ ([(0, 1000), (168, 1200)] : List (Nat × Rat)).length →
      OnSegment [(0, 1000), (168, 1200)] p.1 p.2) :=
  c2_upsample_contract.1 [(0, 1000), (168, 1200)] 0 168 1000 1200 (by norm_num [List.chain'_cons]) rfl rfl

/-! ## C8 — fail-fast on a missing source file -/

/-- C8. If the weekly rates file is absent the Upsampler terminates with
exit status 1 (nonzero) and writes no output; on a present, well-formed
input it completes and writes a non-empty hourly output. -/
theorem c8_missing_file :
    (∀ noise : Nat → Rat, upsample_rates none noise = Except.error 1 ∧ (1 : Nat) ≠ 0) ∧
    (∃ out, upsample_rates (some [(0, 1000), (168, 1200)]) (fun _ => 0) = Except.ok out ∧
      out.length = 169) := by
  refine ⟨fun noise => ⟨rfl, by decide⟩, ?_⟩
  refine ⟨_, rfl, ?_⟩
  rw [List.length_map, List.enum_length]
  exact upsample_example.1

/-! ## C1 — the gold table is a strict inner join -/

theorem mem_transform_gold (docs : List NewsDoc) (rates : List RateRow) (gr : GoldRow) :
    gr ∈ transform_data_with_spark docs rates ↔
    ∃ r ∈ rates, ∃ g ∈ df_daily_news docs,
      g.event_date = some (to_date_ts r.date) ∧
      gr = { full_date := r.date, price := r.price, news_count := g.news_count,
             avg_conflict_score := g.avg_conflict_score } := by
  simp only [transform_data_with_spark, List.mem_flatMap, List.mem_filterMap]
  constructor
  · rintro ⟨r, hr, g, hg, hif⟩
    by_cases hc : g.event_date = some (to_date_ts r.date)
    · rw [if_pos hc] at hif
      exact ⟨r, hr, g, hg, hc, (Option.some_inj.mp hif).symm⟩
    · rw [if_neg hc] at hif
      cases hif
  · rintro ⟨r, hr, g, hg, hc, rfl⟩
    exact ⟨r, hr, g, hg, by rw [if_pos hc]⟩

/-- C1. The transform's join is a strict inner join on truncated calendar
date: a gold row exists exactly for the (rate-hour, news-aggregate) pairs
in which the rate timestamp truncated to its calendar date equals the news
aggregate's (non-`NULL`) `event_date`; consequently a rate-hour whose date
has no news aggregate, and a news day with no rate-hour, contribute no
gold row. -/
theorem c1_strict_inner_join (docs : List NewsDoc) (rates : List RateRow) (gr : GoldRow) :
    gr ∈ transform_data_with_spark docs rates ↔
    ∃ r ∈ rates, ∃ g ∈ df_daily_news docs,
      g.event_date = some (to_date_ts r.date) ∧
      gr = { full_date := r.date, price := r.price, news_count := g.news_count,
             avg_conflict_score := g.avg_conflict_score } :=
  mem_transform_gold docs rates gr

/-! ## C5 — conflict score and derived risk score -/

theorem sum_map_conflict (l : List NewsDoc) :
    (l.map conflict_intensity).sum = -((l.map fun d => d.tone).sum) := by
  induction l with
  | nil => simp
  | cons d l ih =>
    simp only [List.map_cons, List.sum_cons, ih, conflict_intensity]
    ring

theorem transform_ex :
    transform_data_with_spark
      [⟨1, "20231019", "YEM", -3, "u1"⟩, ⟨2, "20231019", "YEM", -4, "u2"⟩,
       ⟨3, "20231019", "YEM", -5, "u3"⟩]
      [⟨⟨20231019, 0⟩, 5000⟩] =
      [{ full_date := ⟨20231019, 0⟩, price := 5000, news_count := 3, avg_conflict_score := 4 }] := by
  set docs0 : List NewsDoc :=
    [⟨1, "20231019", "YEM", -3, "u1"⟩, ⟨2, "20231019", "YEM", -4, "u2"⟩,
     ⟨3, "20231019", "YEM", -5, "u3"⟩] with hdocs
  have hdedup : (docs0.map event_date).dedup = [some 20231019] := by decide
  have hfilter : docs0.filter (fun d => event_date d = some 20231019) = docs0 := by decide
  have hdn : df_daily_news docs0 = [⟨some 20231019, docs0.length,
      (docs0.map conflict_intensity).sum / (docs0.length : Rat)⟩] := by
    unfold df_daily_news
    rw [hdedup]
    rw [List.map_cons, List.map_nil]
    rw [hfilter]
  have havg : (docs0.map conflict_intensity).sum / (docs0.length : Rat) = 4 := by
    simp [hdocs, conflict_intensity]
    norm_num
  unfold transform_data_with_spark
  rw [hdn]
  simp only [List.flatMap_cons, List.flatMap_nil, List.filterMap_cons, List.filterMap_nil]
  rw [if_pos (show (some 20231019 : Option Nat) = some (to_date_ts ⟨20231019, 0⟩) by decide)]
  dsimp only
  rw [havg]
  simp [hdocs]

/-- C5. In every gold row the `avg_conflict_score` is the sign-inverted
mean tone of that day's news documents and the `news_count` is their
number; the dashboard's risk score is `news_count * avg_conflict_score`,
a value derived at load time (`GoldRow` holds no such column — it is not
persisted). -/
theorem c5_conflict_and_risk (docs : List NewsDoc) (rates : List RateRow) (gr : GoldRow)
    (h : gr ∈ transform_data_with_spark docs rates) :
    gr.news_count = (docs_on docs (to_date_ts gr.full_date)).length ∧
    gr.avg_conflict_score =
      -(((docs_on docs (to_date_ts gr.full_date)).map fun d => d.tone).sum /
        ((docs_on docs (to_date_ts gr.full_date)).length : Rat)) ∧
    risk_score gr = (gr.news_count : Rat) * gr.avg_conflict_score := by
  obtain ⟨r, hr, g, hg, hc, rfl⟩ := (mem_transform_gold docs rates gr).mp h
  obtain ⟨k, hk, rfl⟩ := List.mem_map.mp hg
  simp only at hc ⊢
  have hk2 : k = some (to_date_ts r.date) := hc
  subst hk2
  refine ⟨rfl, ?_, rfl⟩
  simp only [docs_on]
  rw [sum_map_conflict]
  rw [neg_div]

/-- C5 witness: a news day with 3 articles of mean tone −4 joined to one
rate hour yields `news_count = 3`, `avg_conflict_score = 4` and a derived
risk score of 12. -/
theorem c5_conflict_and_risk_witness :
    risk_score { full_date := ⟨20231019, 0⟩, price := 5000, news_count := 3,
                 avg_conflict_score := 4 } = 12 := by
  have h := c5_conflict_and_risk
    [⟨1, "20231019", "YEM", -3, "u1"⟩, ⟨2, "20231019", "YEM", -4, "u2"⟩,
     ⟨3, "20231019", "YEM", -5, "u3"⟩]
    [⟨⟨20231019, 0⟩, 5000⟩]
    { full_date := ⟨20231019, 0⟩, price := 5000, news_count := 3, avg_conflict_score := 4 }
    (by rw [transform_ex]; exact List.mem_singleton.mpr rfl)
  rw [h.2.2]
  norm_num

/-! ## C7 — the transform stage is deterministic in its inputs -/

/-- C7. For a fixed pair of source tables the transform stage is a pure
function: its result never depends on the ambient randomness stream, and
running the stage a second time on top of its own output changes nothing
(the write is a whole-table overwrite, or a no-op when the join is
empty). -/
theorem c7_transform_deterministic :
    (∀ (docs : List NewsDoc) (rates : List RateRow) (prior : List GoldRow) (r₁ r₂ : Nat → Rat),
      transform_stage docs rates prior r₁ = transform_stage docs rates prior r₂) ∧
    (∀ (docs : List NewsDoc) (rates : List RateRow) (prior : List GoldRow) (rng : Nat → Rat),
      transform_stage docs rates (transform_stage docs rates prior rng).1 rng =
        transform_stage docs rates prior rng) := by
  constructor
  · intro docs rates prior r₁ r₂
    rfl
  · intro docs rates prior rng
    unfold transform_stage
    by_cases h : (transform_data_with_spark docs rates).length > 0 <;> simp [h]

/-! ## C9 — default date-window clamping (corrected) -/

/-- C9 counterexample: a gold table whose dates lie entirely before the
hard-coded window (single day 2022-06-01). The effective default start
stays 2023-11-15 — `default_start < min_date` is false, so no clamping
fires — and lies strictly above `max(full_date)`, outside the data
bounds. -/
theorem c9_default_window_counterexample :
    min_full_date [{ full_date := ⟨20220601, 0⟩, price := 1000, news_count := 1,
                     avg_conflict_score := 1 }] = some 20220601 ∧
    max_full_date [{ full_date := ⟨20220601, 0⟩, price := 1000, news_count := 1,
                     avg_conflict_score := 1 }] = some 20220601 ∧
    effective_default_start 20220601 = 20231115 ∧
    ¬ effective_default_start 20220601 ≤ 20220601 := by
  refine ⟨by decide, by decide, by decide, by decide⟩

/-- C9, amended. The dashboard's default window is clamped one-sidedly:
the effective default start is `max(2023-11-15, min_date)` (so never below
`min_date`) and the effective default end is `min(2024-01-31, max_date)`
(so never above `max_date`); the start also lies within the data bounds
only when `2023-11-15 ≤ max_date`, and the end only when
`min_date ≤ 2024-01-31` — for data lying entirely on one side of the
hard-coded window the corresponding default falls outside the bounds. -/
theorem list_min?_le_max? (l : List Nat) (a b : Nat)
    (h1 : l.min? = some a) (h2 : l.max? = some b) : a ≤ b := by
  have hmin := (List.min?_eq_some_iff (fun x => Nat.le_refl x) (fun x y => min_choice x y)
    (fun x y z => Nat.le_min)).mp h1
  have hbmem : b ∈ l := List.max?_mem (fun x y => max_choice x y) h2
  exact hmin.2 b hbmem

theorem c9_default_window_amended (df : List GoldRow) (mn mx : Nat)
    (hmn : min_full_date df = some mn) (hmx : max_full_date df = some mx) :
    effective_default_start mn = max default_start_raw mn ∧
    effective_default_end mx = min default_end_raw mx ∧
    mn ≤ effective_default_start mn ∧
    effective_default_end mx ≤ mx ∧
    (default_start_raw ≤ mx → effective_default_start mn ≤ mx) ∧
    (mn ≤ default_end_raw → mn ≤ effective_default_end mx) := by
  have hle : mn ≤ mx := list_min?_le_max? (full_dates df) mn mx hmn hmx
  unfold effective_default_start effective_default_end default_start_raw default_end_raw
  split_ifs <;> omega

/-- C9 witness: the amended clamping at a one-row gold table dated
2023-12-01. -/
theorem c9_default_window_amended_witness :
    effective_default_start 20231201 = max default_start_raw 20231201 ∧
    effective_default_end 20231201 = min default_end_raw 20231201 ∧
    20231201 ≤ effective_default_start 20231201 ∧
    effective_default_end 20231201 ≤ 20231201 ∧
    (default_start_raw ≤ 20231201 → effective_default_start 20231201 ≤ 20231201) ∧
    (20231201 ≤ default_end_raw → 20231201 ≤ effective_default_end 20231201) :=
  c9_default_window_amended
    [{ full_date := ⟨20231201, 0⟩, price := 1000, news_count := 1, avg_conflict_score := 1 }]
    20231201 20231201 (by decide) (by decide)

/-! ## C10 — news ingest truncates before it can fail -/

/-- C10. `ingest_news_to_mongo` empties the destination collection before
the CSV read or insert can fail: the resulting collection state never
depends on the prior contents, a read failure leaves the collection empty
with an error report, and an insert failure on a non-empty batch does the
same — the error outcome is not atomic and does not leave the store
unchanged. -/
theorem c10_ingest_deletes_first :
    (∀ (p₁ p₂ : List NewsDoc) (r : Except String (List NewsDoc)) (ie : Option String),
      ingest_news_to_mongo p₁ r ie = ingest_news_to_mongo p₂ r ie) ∧
    (∀ (prior : List NewsDoc) (e : String) (ie : Option String),
      ingest_news_to_mongo prior (Except.error e) ie = ([], "Error: " ++ e)) ∧
    (∀ (prior recs : List NewsDoc) (e : String), recs ≠ [] →
      ingest_news_to_mongo prior (Except.ok recs) (some e) = ([], "Error: " ++ e)) := by
  refine ⟨?_, ?_, ?_⟩
  · intro p₁ p₂ r ie
    rfl
  · intro prior e ie
    rfl
  · intro prior recs e h
    simp [ingest_news_to_mongo, h]

end RedSea
